import Mathlib

/-!
# Shallow embedding of pyelftools' binary-decoding substrate

This file embeds, in Lean 4, the code of `elftools/common/utils.py` and
`elftools/dwarf/abbrevtable.py` (pyelftools): the `struct_parse` wrapper, the
C-string scanner `parse_cstring_from_stream`, the `preserve_stream_pos`
context manager, the `roundup` alignment helper, the `lazy` memoizing
attribute decorator, and the lazily-parsed DWARF abbreviation table
(`AbbrevTable.get_abbrev` together with its generator
`AbbrevTable._abbrev_table_parser`).

A Python byte stream is modelled as an immutable list of byte values plus a
cursor position; every `read`/`seek` call additionally bumps an access
counter, which makes "no stream access happened" statements expressible.
Recursive parsing loops carry an explicit fuel argument (the loops in the
source terminate because every iteration consumes at least one byte; fuel
`data.length + 1` is therefore always sufficient, and the `none` result of a
fuel-carrying function is unreachable from the wrappers used below).
Python exceptions are modelled with `Except`; the construct library's
`ConstructError` and the exceptions of `elftools.common.exceptions` are
separate types, mirroring the distinct Python classes.

The parsers `Dwarf_uleb128` and `Dwarf_abbrev_declaration` live in
`elftools/dwarf/structs.py`, which is not part of the analysed sources; they
are modelled from the spec's wire format (section 6):
`entry := code:uleb128(!=0) tag:uleb128 children:u8 attr_spec* (0,0)`,
`attr_spec := name:uleb128 form:uleb128`, ULEB128 being the standard
unsigned little-endian base-128 varint encoding.
-/

namespace PyElfTools

/-- A seekable byte stream: immutable contents, a cursor position, and a
counter of stream accesses (each `read`, `readByte` or `seek` call adds one).
Models the Python file-like object shared by all the decoders. -/
structure ByteStream where
  data : List Nat
  pos : Nat
  accesses : Nat
deriving DecidableEq

/-- Python `stream.tell()`. -/
def ByteStream.tell (s : ByteStream) : Nat := s.pos

/-- Python `stream.seek(p)` (absolute). -/
def ByteStream.seek (s : ByteStream) (p : Nat) : ByteStream :=
  { s with pos := p, accesses := s.accesses + 1 }

/-- Python `stream.read(n)`: returns up to `n` bytes starting at the cursor
and advances the cursor by the number of bytes returned. -/
def ByteStream.read (s : ByteStream) (n : Nat) : List Nat × ByteStream :=
  let chunk := (s.data.drop s.pos).take n
  (chunk, { s with pos := s.pos + chunk.length, accesses := s.accesses + 1 })

/-- Python `stream.read(1)` specialised to a single byte: `none` when the
stream is exhausted, otherwise the byte at the cursor. -/
def ByteStream.readByte (s : ByteStream) : Option (Nat × ByteStream) :=
  if h : s.pos < s.data.length then
    some (s.data.get ⟨s.pos, h⟩,
      { s with pos := s.pos + 1, accesses := s.accesses + 1 })
  else
    none

/-- The seek that `struct_parse` and `parse_cstring_from_stream` perform when
their optional `stream_pos` argument is not `None`. -/
def ByteStream.seekOpt (s : ByteStream) (stream_pos : Option Nat) : ByteStream :=
  match stream_pos with
  | some p => s.seek p
  | none => s

/-- The decode-specific error of the underlying layout engine
(`construct.ConstructError`). -/
structure ConstructError where
  msg : String
deriving DecidableEq

/-- Python-level errors surfaced by the embedded code: `KeyError` (Python's
built-in missing-key error, raised by `AbbrevTable.get_abbrev`) and
`ELFParseError` (from `elftools.common.exceptions`, raised by
`struct_parse`). -/
inductive PyErr where
  | keyError (code : Nat)
  | elfParseError (msg : String)
deriving DecidableEq

/-- Classifies a `PyErr` as Python's generic missing-key error (`KeyError`). -/
def PyErr.isMissingKeyError : PyErr → Bool
  | .keyError _ => true
  | _ => false

/-- Modelled from the spec: one step of `Dwarf_uleb128` decoding
(`elftools/dwarf/structs.py` is not among the analysed sources). Reads
bytes one at a time; each byte contributes its low 7 bits, little-endian;
a byte below 128 terminates the varint. A truncated stream is a
`ConstructError`. `fuel` only bounds the recursion; one byte is consumed
per step, so `data.length + 1` fuel can never run out. -/
def uleb128_loop : Nat → ByteStream → Nat → Nat →
    Option (Except ConstructError (Nat × ByteStream))
  | 0, _, _, _ => none
  | fuel + 1, s, shift, acc =>
    match s.readByte with
    | none => some (.error ⟨"unexpected end of stream while parsing uleb128"⟩)
    | some (b, s1) =>
      if b < 128 then
        some (.ok (acc + b % 128 * 2 ^ shift, s1))
      else
        uleb128_loop fuel s1 (shift + 7) (acc + b % 128 * 2 ^ shift)

/-- Modelled from the spec: `Dwarf_uleb128` — decode one unsigned LEB128
varint at the stream cursor. -/
def uleb128_parse (s : ByteStream) : Option (Except ConstructError (Nat × ByteStream)) :=
  uleb128_loop (s.data.length + 1) s 0 0

/-- One decoded `(name, form)` attribute specification pair. -/
structure AttrSpec where
  name : Nat
  form : Nat
deriving DecidableEq

/-- The decoded body of one abbreviation declaration: tag, raw children
flag byte, and the ordered attribute specifications (terminator pair
excluded). -/
structure AbbrevDeclRecord where
  tag : Nat
  children_flag : Nat
  attr_spec : List AttrSpec
deriving DecidableEq

/-- Modelled from the spec: the `attr_spec* (0,0)` repeated-field part of
`Dwarf_abbrev_declaration` — decode `(name, form)` uleb128 pairs until the
`(0, 0)` sentinel pair, which is consumed but not included. Each iteration
consumes at least two bytes, so `data.length + 1` fuel can never run out. -/
def parse_attr_specs : Nat → ByteStream → List AttrSpec →
    Option (Except ConstructError (List AttrSpec × ByteStream))
  | 0, _, _ => none
  | fuel + 1, s, acc =>
    match uleb128_parse s with
    | none => none
    | some (.error e) => some (.error e)
    | some (.ok (nm, s1)) =>
      match uleb128_parse s1 with
      | none => none
      | some (.error e) => some (.error e)
      | some (.ok (form, s2)) =>
        if nm = 0 ∧ form = 0 then
          some (.ok (acc, s2))
        else
          parse_attr_specs fuel s2 (acc ++ [⟨nm, form⟩])

/-- Modelled from the spec: `Dwarf_abbrev_declaration` — the declaration
body following the code: `tag:uleb128 children:u8 attr_spec* (0,0)`. -/
def abbrev_declaration_parse (s : ByteStream) :
    Option (Except ConstructError (AbbrevDeclRecord × ByteStream)) :=
  match uleb128_parse s with
  | none => none
  | some (.error e) => some (.error e)
  | some (.ok (tag, s1)) =>
    match s1.readByte with
    | none => some (.error ⟨"unexpected end of stream while parsing children flag"⟩)
    | some (cf, s2) =>
      match parse_attr_specs (s2.data.length + 1) s2 [] with
      | none => none
      | some (.error e) => some (.error e)
      | some (.ok (specs, s3)) => some (.ok (⟨tag, cf, specs⟩, s3))

/-- `struct_parse(struct, stream, stream_pos)` from `elftools/common/utils.py`:
seek to `stream_pos` when given, run the layout engine's decode, and
translate any `ConstructError` into an `ELFParseError` carrying the original
message. The layout argument is any parser function into the engine's error
type. -/
def struct_parse {α : Type} (struct : ByteStream → Option (Except ConstructError (α × ByteStream)))
    (stream : ByteStream) (stream_pos : Option Nat) :
    Option (Except PyErr (α × ByteStream)) :=
  match struct (stream.seekOpt stream_pos) with
  | none => none
  | some (.error e) => some (.error (.elfParseError e.msg))
  | some (.ok r) => some (.ok r)

/-- Python `chunk.find(b"\x00")`: index of the first zero byte, `none`
standing for Python's `-1` (not found). -/
def bytesFind0 : List Nat → Option Nat
  | [] => none
  | b :: rest => if b = 0 then some 0 else (bytesFind0 rest).map (· + 1)

/-- The `while True` loop of `parse_cstring_from_stream`: read 64-byte
chunks, scan each for a null byte, stop at the first null (keeping the bytes
before it) or at a short read. Returns the `found` flag, the accumulated
chunk list and the stream. Each continuing iteration consumes exactly 64
bytes, so `data.length + 1` fuel can never run out. -/
def cstring_loop : Nat → ByteStream → List (List Nat) →
    Option (Bool × List (List Nat) × ByteStream)
  | 0, _, _ => none
  | fuel + 1, stream, chunks =>
    let r := stream.read 64
    match bytesFind0 r.1 with
    | some endIndex => some (true, chunks ++ [r.1.take endIndex], r.2)
    | none =>
      if r.1.length < 64 then
        some (false, chunks ++ [r.1], r.2)
      else
        cstring_loop fuel r.2 (chunks ++ [r.1])

/-- `parse_cstring_from_stream(stream, stream_pos)` from
`elftools/common/utils.py`: the bytes strictly before the first null byte
(`some`), or Python's `None` when the stream runs out without a null byte.
Also returns the stream, whose cursor sits after the last chunk read. -/
def parse_cstring_from_stream (stream : ByteStream) (stream_pos : Option Nat) :
    Option (Option (List Nat) × ByteStream) :=
  let stream1 := stream.seekOpt stream_pos
  match cstring_loop (stream1.data.length + 1) stream1 [] with
  | none => none
  | some (found, chunks, stream2) =>
    some ((if found then some chunks.flatten else none), stream2)

/-- `preserve_stream_pos(stream)` from `elftools/common/utils.py`, a
`@contextmanager` generator with a bare `yield` and no `try/finally`: the
saved position is restored by the `stream.seek(saved_pos)` after the yield,
which runs only when the wrapped body completes normally. When the body
raises, the exception is thrown into the generator at the yield point and
propagates, so the seek is skipped and the stream stays wherever the body
left it. The wrapped body is modelled as a function returning its outcome
together with the stream it leaves behind. -/
def preserve_stream_pos {ε α : Type} (body : ByteStream → Except ε α × ByteStream)
    (stream : ByteStream) : Except ε α × ByteStream :=
  let saved_pos := stream.tell
  let r := body stream
  match r.1 with
  | .ok v => (.ok v, r.2.seek saved_pos)
  | .error e => (.error e, r.2)

/-- `roundup(num, bits)` from `elftools/common/utils.py`:
`(num - 1 | (1 << bits) - 1) + 1` on Python's arbitrary-precision signed
integers, embedded on `Int` with `Int.lor` for `|` and `1 <<< bits` for
`1 << bits`. -/
def roundup (num : Int) (bits : Nat) : Int :=
  Int.lor (num - 1) (1 <<< (bits : Int) - 1) + 1

/-- A Python instance as the `lazy` decorator sees it: its `__dict__`,
mapping attribute names to already-stored values. -/
structure PyInstance (α : Type) where
  dict : List (String × α)
deriving DecidableEq

/-- The `lazy` descriptor of `elftools/common/utils.py`: the wrapped getter
together with its `__name__`, under which `__get__` stores the computed
value. -/
structure LazyAttr (α : Type) where
  getter_name : String
  getter : PyInstance α → α

/-- `lazy.__get__(obj, _)`: evaluate the getter and store the value in the
instance's `__dict__` under the getter's name. -/
def LazyAttr.descrGet {α : Type} (l : LazyAttr α) (obj : PyInstance α) :
    α × PyInstance α :=
  let val := l.getter obj
  (val, ⟨(l.getter_name, val) :: obj.dict⟩)

/-- One attribute access through the `lazy` descriptor. Per Python's
attribute lookup (and the source's own comment: storing into `__dict__`
"prevents consequent call to `__get__` of this non-data descriptor"), the
instance `__dict__` is consulted first; only on a miss does `__get__` run.
The final component counts how many times the getter was invoked by this
access. -/
def getattr_lazy {α : Type} (l : LazyAttr α) (obj : PyInstance α) :
    α × PyInstance α × Nat :=
  match obj.dict.lookup l.getter_name with
  | some v => (v, obj, 0)
  | none =>
    let r := l.descrGet obj
    (r.1, r.2, 1)

/-- One decoded abbreviation declaration (`AbbrevDecl` in the source):
its code paired with the decoded body. -/
structure AbbrevDecl where
  code : Nat
  decl : AbbrevDeclRecord
deriving DecidableEq

/-- The mutable state of an `AbbrevTable`: `_abbrev_map` as an association
list whose most recent insertion comes first (lookup takes the first match,
matching Python dict lookup), and the generator `_parser_state` reduced to
its persisted cursor offset — `none` once the generator is finished, either
because the terminator was decoded or because an exception propagated out
of it. -/
structure AbbrevTableState where
  cache : List (Nat × AbbrevDecl)
  cursor : Option Nat
deriving DecidableEq

/-- The state `AbbrevTable.__init__` sets up for a table starting at
`offset`: empty `_abbrev_map`, generator about to seek to `offset`. -/
def initAbbrevTable (offset : Nat) : AbbrevTableState :=
  ⟨[], some offset⟩

/-- The scan loop of `get_abbrev`: `for decl in self._parser_state`, where
each resumption of `_abbrev_table_parser` seeks to the persisted offset,
decodes one uleb128 `decl_code`, stops at the terminator `decl_code == 0`,
otherwise decodes the declaration body, persists the new offset, caches the
declaration and compares its code with the requested one. A `ConstructError`
inside the generator surfaces as `ELFParseError` (via `struct_parse`) and
finishes the generator. Every iteration advances the cursor by at least one
byte, so `data.length + 1` fuel can never run out. -/
def get_abbrev_loop : Nat → ByteStream → AbbrevTableState → Nat →
    Option (Except PyErr AbbrevDecl × AbbrevTableState × ByteStream)
  | 0, _, _, _ => none
  | fuel + 1, stream, st, code =>
    match st.cursor with
    | none => some (.error (.keyError code), st, stream)
    | some offset =>
      let stream1 := stream.seek offset
      match struct_parse uleb128_parse stream1 none with
      | none => none
      | some (.error e) => some (.error e, ⟨st.cache, none⟩, stream1)
      | some (.ok (decl_code, stream2)) =>
        if decl_code = 0 then
          some (.error (.keyError code), ⟨st.cache, none⟩, stream2)
        else
          match struct_parse abbrev_declaration_parse stream2 none with
          | none => none
          | some (.error e) => some (.error e, ⟨st.cache, none⟩, stream2)
          | some (.ok (declrec, stream3)) =>
            let decl : AbbrevDecl := ⟨decl_code, declrec⟩
            let st1 : AbbrevTableState := ⟨(decl_code, decl) :: st.cache, some stream3.tell⟩
            if decl_code = code then
              some (.ok decl, st1, stream3)
            else
              get_abbrev_loop fuel stream3 st1 code

/-- `AbbrevTable.get_abbrev(code)`: return the cached declaration when
`code` is already in `_abbrev_map`, with no stream access at all; otherwise
resume the table's parser generator until the code is produced, the
terminator is reached (`KeyError`), or decoding fails (`ELFParseError`).
Returns the result together with the updated table state and stream. -/
def get_abbrev (stream : ByteStream) (st : AbbrevTableState) (code : Nat) :
    Option (Except PyErr AbbrevDecl × AbbrevTableState × ByteStream) :=
  match st.cache.lookup code with
  | some decl => some (.ok decl, st, stream)
  | none => get_abbrev_loop (stream.data.length + 1) stream st code

/-- Byte image of a concrete abbreviation table with declarations at codes
`[3, 1, 7]` in stream order, then the terminator: code 3 has tag 1, no
children, no attribute specs; code 1 has tag 2, no children, no specs;
code 7 has tag 3, children flag 1 and the single spec `(2, 5)`. -/
def tableBytes : List Nat :=
  [3, 1, 0, 0, 0,
   1, 2, 0, 0, 0,
   7, 3, 1, 2, 5, 0, 0,
   0]

/-- The stream holding `tableBytes`, cursor at 0, no accesses yet. -/
def stream0 : ByteStream := ⟨tableBytes, 0, 0⟩

/-- Fresh table state for a table starting at offset 0. -/
def state0 : AbbrevTableState := initAbbrevTable 0

/-- The declaration with code 3 of `tableBytes`. -/
def decl3 : AbbrevDecl := ⟨3, ⟨1, 0, []⟩⟩

/-- The declaration with code 1 of `tableBytes`. -/
def decl1 : AbbrevDecl := ⟨1, ⟨2, 0, []⟩⟩

/-- The declaration with code 7 of `tableBytes`. -/
def decl7 : AbbrevDecl := ⟨7, ⟨3, 1, [⟨2, 5⟩]⟩⟩

/-- Table state after decoding the three declarations of `tableBytes`
(most recent insertion first), cursor persisted at offset 17, right before
the terminator byte. -/
def state7 : AbbrevTableState := ⟨[(7, decl7), (1, decl1), (3, decl3)], some 17⟩

/-- Stream state after the scan that decoded all three declarations of
`tableBytes`: 20 primitive stream accesses (3 seeks and 17 byte reads). -/
def stream7 : ByteStream := ⟨tableBytes, 17, 20⟩

/-- Table state after decoding past the terminator of `tableBytes`: the
parser generator is exhausted. -/
def stateEnd : AbbrevTableState := ⟨[(7, decl7), (1, decl1), (3, decl3)], none⟩

/-- Stream state after decoding the whole of `tableBytes`, terminator byte
included: 22 primitive stream accesses (4 seeks and 18 byte reads). -/
def streamEnd : ByteStream := ⟨tableBytes, 18, 22⟩

/-- Table state after a first `get_abbrev 3` on a fresh table: only the
first declaration decoded, cursor persisted at offset 5. -/
def state3mid : AbbrevTableState := ⟨[(3, decl3)], some 5⟩

/-- Stream state after a first `get_abbrev 3` on a fresh table: 6 accesses
(1 seek and 5 byte reads for the first declaration). -/
def stream3mid : ByteStream := ⟨tableBytes, 5, 6⟩

/-! ### Helper lemmas: the C-string scanner -/

theorem bytesFind0_append_some {a : List Nat} {i : Nat} (b : List Nat)
    (h : bytesFind0 a = some i) : bytesFind0 (a ++ b) = some i := by
  induction a generalizing i with
  | nil => simp [bytesFind0] at h
  | cons x xs ih =>
    by_cases hx : x = 0
    · simp [bytesFind0, hx] at h ⊢
      exact h
    · simp only [bytesFind0, hx, if_false, List.cons_append] at h ⊢
      cases hf : bytesFind0 xs with
      | none => simp [hf] at h
      | some j =>
        simp [hf] at h
        simp [ih hf, ← h]

theorem bytesFind0_append_none {a : List Nat} (b : List Nat)
    (h : bytesFind0 a = none) :
    bytesFind0 (a ++ b) = (bytesFind0 b).map (· + a.length) := by
  induction a with
  | nil =>
    rw [List.nil_append]
    cases h3 : bytesFind0 b with
    | none => simp
    | some k => simp
  | cons x xs ih =>
    by_cases hx : x = 0
    · simp [bytesFind0, hx] at h
    · have h2 : bytesFind0 xs = none := by
        cases hf : bytesFind0 xs
        · rfl
        · rw [show bytesFind0 (x :: xs) = (bytesFind0 xs).map (· + 1) by
            simp [bytesFind0, hx], hf] at h
          simp at h
      have e1 : bytesFind0 ((x :: xs) ++ b) = (bytesFind0 (xs ++ b)).map (· + 1) := by
        simp [bytesFind0, hx]
      rw [e1, ih h2]
      cases bytesFind0 b with
      | none => rfl
      | some k =>
        simp only [Option.map_some', Option.some.injEq, List.length_cons]
        omega

theorem bytesFind0_lt {l : List Nat} {i : Nat} (h : bytesFind0 l = some i) :
    i < l.length := by
  induction l generalizing i with
  | nil => simp [bytesFind0] at h
  | cons x xs ih =>
    by_cases hx : x = 0
    · simp [bytesFind0, hx] at h
      simp [List.length_cons]
      omega
    · simp only [bytesFind0, hx, if_false] at h
      cases hf : bytesFind0 xs with
      | none => simp [hf] at h
      | some j =>
        simp [hf] at h
        have := ih hf
        simp [List.length_cons]
        omega

theorem cstring_loop_found (fuel : Nat) :
    ∀ (s : ByteStream) (chunks : List (List Nat)) (i : Nat),
    s.data.length - s.pos < fuel →
    bytesFind0 (s.data.drop s.pos) = some i →
    ∃ cs, cstring_loop fuel s chunks =
        some (true, cs,
          ⟨s.data, min (s.pos + 64 * (i / 64 + 1)) s.data.length,
            s.accesses + (i / 64 + 1)⟩) ∧
      cs.flatten = chunks.flatten ++ (s.data.drop s.pos).take i := by
  induction fuel with
  | zero =>
    intro s chunks i hf hi
    omega
  | succ fuel ih =>
    intro s chunks i hf hi
    have hrem : (s.data.drop s.pos).length = s.data.length - s.pos := by simp
    have hsplit : (s.data.drop s.pos).take 64 ++ (s.data.drop s.pos).drop 64
        = s.data.drop s.pos := List.take_append_drop ..
    have hlen : ((s.data.drop s.pos).take 64).length = min 64 (s.data.length - s.pos) := by
      simp [List.length_take, hrem]
    cases hc : bytesFind0 ((s.data.drop s.pos).take 64) with
    | some j =>
      have hj : bytesFind0 (s.data.drop s.pos) = some j := by
        rw [← hsplit]
        exact bytesFind0_append_some _ hc
      rw [hi] at hj
      obtain rfl : i = j := by simpa using hj
      have hi64 : i < 64 := by
        have := bytesFind0_lt hc
        omega
      have hlt : i < s.data.length - s.pos := by
        have h1 := bytesFind0_lt hi
        rw [hrem] at h1
        exact h1
      have h0 : i / 64 = 0 := Nat.div_eq_of_lt hi64
      refine ⟨chunks ++ [((s.data.drop s.pos).take 64).take i], ?_, ?_⟩
      · simp only [cstring_loop, ByteStream.read, hc]
        have hpos : s.pos + ((s.data.drop s.pos).take 64).length
            = min (s.pos + 64 * (i / 64 + 1)) s.data.length := by
          rw [hlen, h0]
          omega
        rw [hpos, h0]
      · rw [List.flatten_append, List.take_take]
        simp [Nat.min_eq_left hi64.le]
    | none =>
      by_cases hshort : ((s.data.drop s.pos).take 64).length < 64
      · exfalso
        rw [hlen] at hshort
        have hdrop : (s.data.drop s.pos).drop 64 = [] := by
          apply List.drop_eq_nil_of_le
          rw [hrem]
          omega
        have hnone := bytesFind0_append_none ((s.data.drop s.pos).drop 64) hc
        rw [hsplit, hdrop] at hnone
        simp [bytesFind0] at hnone
        rw [hi] at hnone
        exact Option.noConfusion hnone
      · have hfull : ((s.data.drop s.pos).take 64).length = 64 := by
          have h1 : ((s.data.drop s.pos).take 64).length ≤ 64 := List.length_take_le ..
          omega
        have h64 : 64 ≤ s.data.length - s.pos := by
          rw [hlen] at hfull
          omega
        have happ := bytesFind0_append_none ((s.data.drop s.pos).drop 64) hc
        rw [hsplit, hfull, hi] at happ
        cases h2 : bytesFind0 ((s.data.drop s.pos).drop 64) with
        | none =>
          rw [h2] at happ
          exact Option.noConfusion happ
        | some i2 =>
          rw [h2] at happ
          have hii : i = i2 + 64 := by simpa using happ
          have hdd : s.data.drop (s.pos + 64) = (s.data.drop s.pos).drop 64 := by
            rw [List.drop_drop]
          obtain ⟨cs, hloop, hfl⟩ :=
            ih ⟨s.data, s.pos + 64, s.accesses + 1⟩
              (chunks ++ [(s.data.drop s.pos).take 64]) i2
              (by simp only; omega)
              (by simp only [hdd]; exact h2)
          refine ⟨cs, ?_, ?_⟩
          · simp only [cstring_loop, ByteStream.read, hc, hfull]
            simp only [Nat.lt_irrefl, if_false]
            rw [hloop]
            have e1 : min (s.pos + 64 + 64 * (i2 / 64 + 1)) s.data.length
                = min (s.pos + 64 * (i / 64 + 1)) s.data.length := by
              omega
            have e2 : s.accesses + 1 + (i2 / 64 + 1) = s.accesses + (i / 64 + 1) := by
              omega
            rw [e1, e2]
          · rw [hfl, List.flatten_append]
            have hi' : i = 64 + i2 := by omega
            rw [hi', List.take_add, hdd]
            simp [List.append_assoc]

theorem cstring_loop_not_found (fuel : Nat) :
    ∀ (s : ByteStream) (chunks : List (List Nat)),
    s.data.length - s.pos < fuel →
    bytesFind0 (s.data.drop s.pos) = none →
    ∃ cs, cstring_loop fuel s chunks =
        some (false, cs,
          ⟨s.data, max s.pos s.data.length,
            s.accesses + ((s.data.length - s.pos) / 64 + 1)⟩) := by
  induction fuel with
  | zero =>
    intro s chunks hf hn
    omega
  | succ fuel ih =>
    intro s chunks hf hn
    have hrem : (s.data.drop s.pos).length = s.data.length - s.pos := by simp
    have hsplit : (s.data.drop s.pos).take 64 ++ (s.data.drop s.pos).drop 64
        = s.data.drop s.pos := List.take_append_drop ..
    have hlen : ((s.data.drop s.pos).take 64).length = min 64 (s.data.length - s.pos) := by
      simp [List.length_take, hrem]
    cases hc : bytesFind0 ((s.data.drop s.pos).take 64) with
    | some j =>
      exfalso
      have hj : bytesFind0 (s.data.drop s.pos) = some j := by
        rw [← hsplit]
        exact bytesFind0_append_some _ hc
      rw [hn] at hj
      exact Option.noConfusion hj
    | none =>
      have happ := bytesFind0_append_none ((s.data.drop s.pos).drop 64) hc
      rw [hsplit, hn] at happ
      have h2 : bytesFind0 ((s.data.drop s.pos).drop 64) = none := by
        cases h3 : bytesFind0 ((s.data.drop s.pos).drop 64)
        · rfl
        · rw [h3] at happ
          simp at happ
      by_cases hshort : ((s.data.drop s.pos).take 64).length < 64
      · have hshort2 := hshort
        rw [hlen] at hshort2
        refine ⟨chunks ++ [(s.data.drop s.pos).take 64], ?_⟩
        simp only [cstring_loop, ByteStream.read, hc, hshort, if_true]
        have e1 : s.pos + ((s.data.drop s.pos).take 64).length
            = max s.pos s.data.length := by
          rw [hlen]
          omega
        have e2 : (s.data.length - s.pos) / 64 + 1 = 1 := by omega
        rw [e1, e2]
      · have hfull : ((s.data.drop s.pos).take 64).length = 64 := by
          have h1 : ((s.data.drop s.pos).take 64).length ≤ 64 := List.length_take_le ..
          omega
        have h64 : 64 ≤ s.data.length - s.pos := by
          rw [hlen] at hfull
          omega
        have hdd : s.data.drop (s.pos + 64) = (s.data.drop s.pos).drop 64 := by
          rw [List.drop_drop]
        obtain ⟨cs, hloop⟩ :=
          ih ⟨s.data, s.pos + 64, s.accesses + 1⟩
            (chunks ++ [(s.data.drop s.pos).take 64])
            (by simp only; omega)
            (by simp only [hdd]; exact h2)
        refine ⟨cs, ?_⟩
        simp only [cstring_loop, ByteStream.read, hc, hfull]
        simp only [Nat.lt_irrefl, if_false]
        rw [hloop]
        have e1 : max (s.pos + 64) s.data.length = max s.pos s.data.length := by omega
        have e2 : s.accesses + 1 + ((s.data.length - (s.pos + 64)) / 64 + 1)
            = s.accesses + ((s.data.length - s.pos) / 64 + 1) := by omega
        rw [e1, e2]

theorem parse_cstring_found (s : ByteStream) (i : Nat)
    (hi : bytesFind0 (s.data.drop s.pos) = some i) :
    parse_cstring_from_stream s none =
      some (some ((s.data.drop s.pos).take i),
        ⟨s.data, min (s.pos + 64 * (i / 64 + 1)) s.data.length,
          s.accesses + (i / 64 + 1)⟩) := by
  obtain ⟨cs, hloop, hfl⟩ := cstring_loop_found (s.data.length + 1) s [] i (by omega) hi
  simp only [parse_cstring_from_stream, ByteStream.seekOpt]
  rw [hloop]
  simp [hfl]

theorem parse_cstring_not_found (s : ByteStream)
    (hn : bytesFind0 (s.data.drop s.pos) = none) :
    parse_cstring_from_stream s none =
      some (none,
        ⟨s.data, max s.pos s.data.length,
          s.accesses + ((s.data.length - s.pos) / 64 + 1)⟩) := by
  obtain ⟨cs, hloop⟩ := cstring_loop_not_found (s.data.length + 1) s [] (by omega) hn
  simp only [parse_cstring_from_stream, ByteStream.seekOpt]
  rw [hloop]
  simp

/-! ### Helper lemmas: the abbreviation table -/

theorem get_abbrev_loop_ok_lookup (fuel : Nat) :
    ∀ (stream : ByteStream) (st : AbbrevTableState) (code : Nat) (d : AbbrevDecl)
      (st2 : AbbrevTableState) (s2 : ByteStream),
    get_abbrev_loop fuel stream st code = some (.ok d, st2, s2) →
    st2.cache.lookup code = some d := by
  induction fuel with
  | zero =>
    intro stream st code d st2 s2 h
    simp [get_abbrev_loop] at h
  | succ fuel ih =>
    intro stream st code d st2 s2 h
    simp only [get_abbrev_loop] at h
    split at h
    · simp at h
    · split at h
      · simp at h
      · simp at h
      · split at h
        · simp at h
        · split at h
          · simp at h
          · simp at h
          · split at h
            · rename_i hcode
              simp only [Option.some.injEq, Prod.mk.injEq] at h
              obtain ⟨hd, hst, hs⟩ := h
              subst hcode
              rw [← hst]
              simp only [List.lookup_cons_self]
              simp only [Except.ok.injEq] at hd
              rw [hd]
            · exact ih _ _ _ _ _ _ h

theorem get_abbrev_loop_zero_preserved (fuel : Nat) :
    ∀ (stream : ByteStream) (st : AbbrevTableState) (code : Nat)
      (r : Except PyErr AbbrevDecl) (st2 : AbbrevTableState) (s2 : ByteStream),
    st.cache.lookup 0 = none →
    get_abbrev_loop fuel stream st code = some (r, st2, s2) →
    st2.cache.lookup 0 = none := by
  induction fuel with
  | zero =>
    intro stream st code r st2 s2 h0 h
    simp [get_abbrev_loop] at h
  | succ fuel ih =>
    intro stream st code r st2 s2 h0 h
    simp only [get_abbrev_loop] at h
    split at h
    · simp only [Option.some.injEq, Prod.mk.injEq] at h
      rw [← h.2.1]
      exact h0
    · split at h
      · simp at h
      · simp only [Option.some.injEq, Prod.mk.injEq] at h
        rw [← h.2.1]
        exact h0
      · split at h
        · simp only [Option.some.injEq, Prod.mk.injEq] at h
          rw [← h.2.1]
          exact h0
        · split at h
          · simp at h
          · simp only [Option.some.injEq, Prod.mk.injEq] at h
            rw [← h.2.1]
            exact h0
          · rename_i decl_code stream2 huleb hne xd declrec stream3 heqd
            have h0' : ((decl_code, (⟨decl_code, declrec⟩ : AbbrevDecl)) :: st.cache).lookup 0
                = none := by
              rw [List.lookup_cons]
              have hb : (0 == decl_code) = false := by
                simp only [beq_eq_false_iff_ne, ne_eq]
                omega
              rw [hb]
              exact h0
            split at h
            · simp only [Option.some.injEq, Prod.mk.injEq] at h
              rw [← h.2.1]
              exact h0'
            · exact ih _ _ _ _ _ _ h0' h

theorem get_abbrev_loop_zero_not_ok (fuel : Nat) :
    ∀ (stream : ByteStream) (st : AbbrevTableState) (d : AbbrevDecl)
      (st2 : AbbrevTableState) (s2 : ByteStream),
    get_abbrev_loop fuel stream st 0 ≠ some (.ok d, st2, s2) := by
  induction fuel with
  | zero =>
    intro stream st d st2 s2 h
    simp [get_abbrev_loop] at h
  | succ fuel ih =>
    intro stream st d st2 s2 h
    simp only [get_abbrev_loop] at h
    split at h
    · simp at h
    · split at h
      · simp at h
      · simp at h
      · split at h
        · simp at h
        · split at h
          · simp at h
          · simp at h
          · exact ih _ _ _ _ _ h

/-! ### Helper lemmas: roundup -/

theorem nat_lor_two_pow_sub_one (a b : Nat) :
    a ||| (2 ^ b - 1) = 2 ^ b * (a / 2 ^ b) + (2 ^ b - 1) := by
  apply Nat.eq_of_testBit_eq
  intro i
  rw [Nat.testBit_lor,
    Nat.testBit_mul_pow_two_add (a / 2 ^ b) (Nat.sub_lt (Nat.two_pow_pos b) Nat.one_pos) i,
    Nat.testBit_two_pow_sub_one]
  by_cases h : i < b
  · simp [h]
  · simp only [h, decide_False, Bool.or_false, if_false]
    rw [← Nat.shiftRight_eq_div_pow, Nat.testBit_shiftRight]
    congr 1
    omega

theorem nat_ldiff_zero_left (n : Nat) : Nat.ldiff 0 n = 0 := by
  simp [Nat.ldiff, Nat.bitwise]

theorem int_neg_one_lor (n : Nat) : Int.lor (-1) ((n : Nat) : Int) = -1 := by
  show Int.negSucc (Nat.ldiff 0 n) = Int.negSucc 0
  rw [nat_ldiff_zero_left]

theorem int_lor_natCast (m n : Nat) :
    Int.lor ((m : Nat) : Int) ((n : Nat) : Int) = ((m ||| n : Nat) : Int) := rfl

theorem roundup_zero (bits : Nat) : roundup 0 bits = 0 := by
  unfold roundup
  rw [Int.one_shiftLeft]
  have h1 : ((2 ^ bits : Nat) : Int) - 1 = ((2 ^ bits - 1 : Nat) : Int) := by
    have h2 : (1 : Nat) ≤ 2 ^ bits := Nat.one_le_two_pow
    omega
  have h3 : (0 : Int) - 1 = -1 := by ring
  rw [h3, h1, int_neg_one_lor]
  ring

theorem roundup_succ (n : Nat) (bits : Nat) :
    roundup ((n : Int) + 1) bits = ((2 ^ bits * (n / 2 ^ bits + 1) : Nat) : Int) := by
  unfold roundup
  rw [Int.one_shiftLeft]
  have h1 : ((n : Int) + 1 - 1) = ((n : Nat) : Int) := by ring
  have h2 : ((2 ^ bits : Nat) : Int) - 1 = ((2 ^ bits - 1 : Nat) : Int) := by
    have h3 : (1 : Nat) ≤ 2 ^ bits := Nat.one_le_two_pow
    omega
  rw [h1, h2, int_lor_natCast, nat_lor_two_pow_sub_one]
  have h4 : 2 ^ bits * (n / 2 ^ bits) + (2 ^ bits - 1) + 1
      = 2 ^ bits * (n / 2 ^ bits + 1) := by
    rw [Nat.mul_succ]
    have h5 : (1 : Nat) ≤ 2 ^ bits := Nat.one_le_two_pow
    omega
  rw [← h4]
  exact_mod_cast rfl

/-! ### Claim theorems -/

/-- C1: Resumability of the abbreviation-table decode. On the table with
declarations at codes `[3, 1, 7]` in stream order, a first `get_abbrev 7`
decodes and caches the intermediate declarations 3 and 1 along the way
(visible in `state7`'s cache), returns declaration 7, and subsequent
`get_abbrev 3` and `get_abbrev 1` return the cached declarations leaving
the stream untouched (identical access counter — no rereading). The last
two conjuncts show resumption from the persisted cursor: after a first
`get_abbrev 3` stops at cursor 5 with 6 accesses, `get_abbrev 7` resumes at
offset 5 and reaches 20 accesses — exactly the 14 accesses of the two
remaining declarations, so declaration 3's bytes are not decoded again. -/
theorem c1_resumability :
    get_abbrev stream0 state0 7 = some (.ok decl7, state7, stream7) ∧
    get_abbrev stream7 state7 3 = some (.ok decl3, state7, stream7) ∧
    get_abbrev stream7 state7 1 = some (.ok decl1, state7, stream7) ∧
    get_abbrev stream0 state0 3 = some (.ok decl3, state3mid, stream3mid) ∧
    get_abbrev stream3mid state3mid 7 = some (.ok decl7, state7, stream7) :=
  ⟨rfl, rfl, rfl, rfl, rfl⟩

/-- C2: Memoization. Whenever `get_abbrev` succeeds with declaration `d`,
table state `st2` and stream `s2`, calling `get_abbrev` again with the same
code on that table returns the very same cached declaration, the same table
state and the untouched stream `s2` itself — in particular the stream's
access counter is unchanged, so no read or seek was performed. -/
theorem c2_memoization :
    ∀ (stream : ByteStream) (st : AbbrevTableState) (code : Nat) (d : AbbrevDecl)
      (st2 : AbbrevTableState) (s2 : ByteStream),
    get_abbrev stream st code = some (.ok d, st2, s2) →
    get_abbrev s2 st2 code = some (.ok d, st2, s2) := by
  intro stream st code d st2 s2 h
  have hl : st2.cache.lookup code = some d := by
    unfold get_abbrev at h
    split at h
    · rename_i decl hc
      simp only [Option.some.injEq, Prod.mk.injEq, Except.ok.injEq] at h
      obtain ⟨h1, h2, h3⟩ := h
      rw [← h2, hc, h1]
    · exact get_abbrev_loop_ok_lookup _ _ _ _ _ _ _ h
  unfold get_abbrev
  rw [hl]

/-- C2 witness: after the successful `get_abbrev 7` of `c1`'s table, a
second `get_abbrev 7` returns the cached declaration with no stream
access. -/
theorem c2_witness : get_abbrev stream7 state7 7 = some (.ok decl7, state7, stream7) :=
  c2_memoization stream0 state0 7 decl7 state7 stream7 rfl

/-- C3 counterexample: looking up the absent code 9 in `tableBytes` decodes
up to the terminator and fails with `KeyError 9` — which IS Python's
generic missing-key error (`isMissingKeyError` is true), contradicting the
claim's assertion that the not-found failure is "not a generic missing-key
error". -/
theorem c3_counterexample :
    get_abbrev stream0 state0 9 = some (.error (.keyError 9), stateEnd, streamEnd) ∧
    (PyErr.keyError 9).isMissingKeyError = true :=
  ⟨rfl, rfl⟩

/-- C3 (amended): when the scan decodes the terminator (`decl_code = 0`)
before producing the requested code, `get_abbrev` fails with `KeyError` —
Python's generic missing-key error, which is nonetheless a type distinct
from the binary parse error `ELFParseError` — and once the generator is
exhausted every later `get_abbrev` for an uncached code fails with that
same `KeyError` returning the stream untouched (no further reads or
seeks). -/
theorem c3_amended :
    (∀ (stream : ByteStream) (st : AbbrevTableState) (code offset : Nat) (s2 : ByteStream),
      st.cache.lookup code = none → st.cursor = some offset →
      struct_parse uleb128_parse (stream.seek offset) none = some (.ok (0, s2)) →
      get_abbrev stream st code = some (.error (.keyError code), ⟨st.cache, none⟩, s2)) ∧
    (∀ (stream : ByteStream) (st : AbbrevTableState) (code : Nat),
      st.cursor = none → st.cache.lookup code = none →
      get_abbrev stream st code = some (.error (.keyError code), st, stream)) ∧
    (∀ (c : Nat) (m : String), PyErr.keyError c ≠ PyErr.elfParseError m) := by
  refine ⟨?_, ?_, ?_⟩
  · intro stream st code offset s2 hl hcur hp
    simp only [get_abbrev, hl, get_abbrev_loop, hcur, hp]
    simp
  · intro stream st code hcur hl
    simp only [get_abbrev, hl, get_abbrev_loop, hcur]
  · intro c m h
    exact PyErr.noConfusion h

/-- C3 witness: in the exhausted state reached after `c3_counterexample`,
looking up the uncached code 9 again fails with `KeyError 9` and returns
the stream untouched. -/
theorem c3_witness :
    get_abbrev streamEnd stateEnd 9 = some (.error (.keyError 9), stateEnd, streamEnd) :=
  c3_amended.2.1 streamEnd stateEnd 9 rfl rfl

/-- C4 counterexample: a wrapped operation that seeks to position 5 and then
fails leaves the stream at position 5, not at the saved position 0 — the
guard does not restore the position on the error path (the generator-based
context manager has no try/finally around its yield). -/
theorem c4_counterexample :
    (preserve_stream_pos
      (fun s => ((Except.error "decode failure" : Except String Unit), s.seek 5))
      stream0).2.pos = 5 ∧
    stream0.pos = 0 ∧
    (preserve_stream_pos
      (fun s => ((Except.error "decode failure" : Except String Unit), s.seek 5))
      stream0).2.pos ≠ stream0.pos :=
  ⟨rfl, rfl, by decide⟩

/-- C4 (amended): `preserve_stream_pos` restores the captured position when
the wrapped operation completes normally; when the operation raises, the
exception propagates and the stream is left wherever the operation moved
it — no restoration happens on the error path. -/
theorem c4_amended :
    (∀ (ε α : Type) (body : ByteStream → Except ε α × ByteStream) (stream : ByteStream)
      (v : α) (s1 : ByteStream), body stream = (.ok v, s1) →
      (preserve_stream_pos body stream).2.pos = stream.pos) ∧
    (∀ (ε α : Type) (body : ByteStream → Except ε α × ByteStream) (stream : ByteStream)
      (e : ε) (s1 : ByteStream), body stream = (.error e, s1) →
      preserve_stream_pos body stream = (.error e, s1)) := by
  constructor
  · intro ε α body stream v s1 hb
    simp only [preserve_stream_pos, hb, ByteStream.seek, ByteStream.tell]
  · intro ε α body stream e s1 hb
    simp only [preserve_stream_pos, hb]

/-- C4 witness: for an operation that seeks to 9 and completes normally,
the guard restores the starting position. -/
theorem c4_witness :
    (preserve_stream_pos
      (fun s => ((Except.ok 42 : Except String Nat), s.seek 9)) stream0).2.pos
      = stream0.pos :=
  c4_amended.1 String Nat _ stream0 42 (stream0.seek 9) rfl

/-- C5: Unified error translation in `struct_parse`. For every layout
parser and stream, when the layout engine fails with a `ConstructError`,
`struct_parse` fails with an `ELFParseError` carrying the original error's
message (the result type `Except PyErr _` cannot carry a `ConstructError`
at all, so callers never see the engine's own error type); on success it
returns the decoded value unchanged. -/
theorem c5_error_translation :
    ∀ (α : Type) (struct : ByteStream → Option (Except ConstructError (α × ByteStream)))
      (stream : ByteStream) (stream_pos : Option Nat),
      (∀ e, struct (stream.seekOpt stream_pos) = some (.error e) →
        struct_parse struct stream stream_pos = some (.error (.elfParseError e.msg))) ∧
      (∀ v s2, struct (stream.seekOpt stream_pos) = some (.ok (v, s2)) →
        struct_parse struct stream stream_pos = some (.ok (v, s2))) := by
  intro α struct stream stream_pos
  constructor
  · intro e he
    simp only [struct_parse, he]
  · intro v s2 hv
    simp only [struct_parse, hv]

/-- C5 witness: a layout that fails with message "malformed uleb128" makes
`struct_parse` fail with `ELFParseError "malformed uleb128"`. -/
theorem c5_witness :
    @struct_parse Nat (fun _ => some (.error ⟨"malformed uleb128"⟩)) stream0 none
      = some (.error (.elfParseError "malformed uleb128")) :=
  (c5_error_translation Nat
    (fun _ => some (.error ⟨"malformed uleb128"⟩)) stream0 none).1
    ⟨"malformed uleb128"⟩ rfl

/-- C6: C-string scanner boundary cases. (1) When the remaining bytes have
their first null at index `i`, the scanner returns exactly the bytes
strictly before it, terminator excluded. (2) A null as the very first byte
yields the empty byte sequence. (3) A stream exhausted without a null
yields the not-found sentinel `none`, (4) which is distinct from the empty
sequence `some []`. (5) A null exactly at the 64-byte chunk boundary is
still found correctly. -/
theorem c6_cstring_boundaries :
    (∀ (s : ByteStream) (i : Nat), bytesFind0 (s.data.drop s.pos) = some i →
      (parse_cstring_from_stream s none).map (fun r => r.1)
        = some (some ((s.data.drop s.pos).take i))) ∧
    (∀ (s : ByteStream) (rest : List Nat), s.data.drop s.pos = 0 :: rest →
      (parse_cstring_from_stream s none).map (fun r => r.1) = some (some [])) ∧
    (∀ (s : ByteStream), bytesFind0 (s.data.drop s.pos) = none →
      (parse_cstring_from_stream s none).map (fun r => r.1) = some none) ∧
    (some ([] : List Nat) ≠ (none : Option (List Nat))) ∧
    (parse_cstring_from_stream ⟨List.replicate 64 1 ++ [0], 0, 0⟩ none).map (fun r => r.1)
      = some (some (List.replicate 64 1)) := by
  have part1 : ∀ (s : ByteStream) (i : Nat), bytesFind0 (s.data.drop s.pos) = some i →
      (parse_cstring_from_stream s none).map (fun r => r.1)
        = some (some ((s.data.drop s.pos).take i)) := by
    intro s i hi
    rw [parse_cstring_found s i hi]
    rfl
  refine ⟨part1, ?_, ?_, ?_, ?_⟩
  · intro s rest hrest
    have h0 : bytesFind0 (s.data.drop s.pos) = some 0 := by
      rw [hrest]
      simp [bytesFind0]
    rw [part1 s 0 h0]
    simp
  · intro s hn
    rw [parse_cstring_not_found s hn]
    rfl
  · decide
  · decide

/-- C6 witness: on the stream `[5, 0, 7]` the scanner returns `[5]`. -/
theorem c6_witness :
    (parse_cstring_from_stream ⟨[5, 0, 7], 0, 0⟩ none).map (fun r => r.1)
      = some (some [5]) :=
  c6_cstring_boundaries.1 ⟨[5, 0, 7], 0, 0⟩ 1 (by decide)

/-- C7: the `lazy` decorator invokes the wrapped getter at most once per
instance. While the value is absent from the instance's `__dict__`, one
access invokes the getter exactly once and stores the result; an access on
an instance whose `__dict__` already holds the value returns it with zero
getter invocations and leaves the instance unchanged — so every access
after the first returns the stored value without recomputation. -/
theorem c7_lazy_memoization :
    ∀ (α : Type) (l : LazyAttr α) (obj : PyInstance α),
      (∀ v, obj.dict.lookup l.getter_name = some v → getattr_lazy l obj = (v, obj, 0)) ∧
      (obj.dict.lookup l.getter_name = none →
        getattr_lazy l obj
          = (l.getter obj, ⟨(l.getter_name, l.getter obj) :: obj.dict⟩, 1) ∧
        getattr_lazy l ⟨(l.getter_name, l.getter obj) :: obj.dict⟩
          = (l.getter obj, ⟨(l.getter_name, l.getter obj) :: obj.dict⟩, 0)) := by
  intro α l obj
  constructor
  · intro v hv
    simp only [getattr_lazy, hv]
  · intro hn
    constructor
    · simp only [getattr_lazy, hn, LazyAttr.descrGet]
    · simp only [getattr_lazy, List.lookup_cons_self]

/-- C7 witness: a lazy attribute computing 42 on a fresh instance: the
first access invokes the getter once and stores 42. -/
theorem c7_witness :
    getattr_lazy (⟨"x", fun _ => 42⟩ : LazyAttr Nat) ⟨[]⟩ = (42, ⟨[("x", 42)]⟩, 1) :=
  ((c7_lazy_memoization Nat ⟨"x", fun _ => 42⟩ ⟨[]⟩).2 rfl).1

/-- C8: `roundup num bits` is the least multiple of `2 ^ bits` that is at
least `num`, for every non-negative `num`: the result is divisible by
`2 ^ bits` (its low `bits` bits are 0), is at least `num`, and is below or
equal to every multiple of `2 ^ bits` that is at least `num`; and the four
concrete examples hold. -/
theorem c8_roundup :
    (∀ (num : Int) (bits : Nat), 0 ≤ num →
      roundup num bits % 2 ^ bits = 0 ∧
      num ≤ roundup num bits ∧
      ∀ m : Int, num ≤ m → m % 2 ^ bits = 0 → roundup num bits ≤ m) ∧
    (roundup 0 3 = 0 ∧ roundup 1 3 = 8 ∧ roundup 8 3 = 8 ∧ roundup 9 3 = 16) := by
  constructor
  · intro num bits hnum
    obtain ⟨n, rfl⟩ := Int.eq_ofNat_of_zero_le hnum
    cases n with
    | zero =>
      rw [show ((0 : Nat) : Int) = 0 from rfl, roundup_zero]
      refine ⟨by simp, le_refl 0, ?_⟩
      intro m hm _
      simpa using hm
    | succ k =>
      have hcast : ((k + 1 : Nat) : Int) = (k : Int) + 1 := by push_cast; ring
      rw [hcast, roundup_succ]
      refine ⟨?_, ?_, ?_⟩
      · rw [show ((2 ^ bits * (k / 2 ^ bits + 1) : Nat) : Int)
            = (2 : Int) ^ bits * ((k / 2 ^ bits + 1 : Nat) : Int) from by push_cast; ring]
        exact Int.mul_emod_right _ _
      · have hb : k + 1 ≤ 2 ^ bits * (k / 2 ^ bits + 1) := by
          have h1 := Nat.div_add_mod k (2 ^ bits)
          have h2 : k % 2 ^ bits < 2 ^ bits := Nat.mod_lt _ (Nat.two_pow_pos bits)
          rw [Nat.mul_succ]
          omega
        exact_mod_cast hb
      · intro m hm hmod
        obtain ⟨c, hc⟩ := Int.dvd_of_emod_eq_zero hmod
        subst hc
        have hP : (0 : Int) < 2 ^ bits := by positivity
        have h1 : (2 : Int) ^ bits * ((k / 2 ^ bits : Nat) : Int) ≤ (k : Int) := by
          have := Nat.mul_div_le k (2 ^ bits)
          exact_mod_cast this
        have h2 : (k : Int) < 2 ^ bits * c := by
          have h3 : ((k : Int)) + 1 ≤ 2 ^ bits * c := by exact_mod_cast hm
          linarith
        have h4 : ((k / 2 ^ bits : Nat) : Int) < c :=
          lt_of_mul_lt_mul_left (lt_of_le_of_lt h1 h2) hP.le
        have h5 : ((k / 2 ^ bits : Nat) : Int) + 1 ≤ c := Int.add_one_le_iff.mpr h4
        have h6 : (2 : Int) ^ bits * (((k / 2 ^ bits : Nat) : Int) + 1) ≤ 2 ^ bits * c :=
          mul_le_mul_of_nonneg_left h5 hP.le
        calc ((2 ^ bits * (k / 2 ^ bits + 1) : Nat) : Int)
            = (2 : Int) ^ bits * (((k / 2 ^ bits : Nat) : Int) + 1) := by push_cast; ring
          _ ≤ 2 ^ bits * c := h6
  · refine ⟨roundup_zero 3, ?_, ?_, ?_⟩
    · have h := roundup_succ 0 3
      norm_num at h
      exact h
    · have h := roundup_succ 7 3
      norm_num at h
      exact h
    · have h := roundup_succ 8 3
      norm_num at h
      exact h

/-- C8 witness: `roundup 5 3` is a multiple of 8, is at least 5, and is at
most the multiple 8. -/
theorem c8_witness :
    roundup 5 3 % 2 ^ 3 = 0 ∧ (5 : Int) ≤ roundup 5 3 ∧ roundup 5 3 ≤ 8 := by
  have h := c8_roundup.1 5 3 (by decide)
  exact ⟨h.1, h.2.1, h.2.2 8 (by decide) (by decide)⟩

/-- C9: the reserved terminator code 0 never yields a declaration. The scan
loop never inserts code 0 into the cache (first conjunct: the
zero-not-cached property is preserved by the loop), so as long as 0 is not
cached — true for every state reachable from `initAbbrevTable` —
`get_abbrev 0` never returns a declaration (second conjunct), and on the
concrete well-formed table it consumes the remaining entries up to the
terminator and fails with `KeyError 0` (third conjunct). -/
theorem c9_code_zero_not_found :
    (∀ (fuel : Nat) (stream : ByteStream) (st : AbbrevTableState) (code : Nat)
       (r : Except PyErr AbbrevDecl) (st2 : AbbrevTableState) (s2 : ByteStream),
      st.cache.lookup 0 = none →
      get_abbrev_loop fuel stream st code = some (r, st2, s2) →
      st2.cache.lookup 0 = none) ∧
    (∀ (stream : ByteStream) (st : AbbrevTableState) (d : AbbrevDecl)
       (st2 : AbbrevTableState) (s2 : ByteStream),
      st.cache.lookup 0 = none →
      get_abbrev stream st 0 ≠ some (.ok d, st2, s2)) ∧
    get_abbrev stream0 state0 0 = some (.error (.keyError 0), stateEnd, streamEnd) := by
  refine ⟨fun fuel => get_abbrev_loop_zero_preserved fuel, ?_, rfl⟩
  intro stream st d st2 s2 h0 h
  unfold get_abbrev at h
  split at h
  · rename_i decl hc
    rw [h0] at hc
    exact Option.noConfusion hc
  · exact get_abbrev_loop_zero_not_ok _ _ _ _ _ _ h

/-- C9 witness: on the fresh concrete table, `get_abbrev 0` does not return
declaration 3 (nor any other declaration). -/
theorem c9_witness :
    get_abbrev stream0 state0 0 ≠ some (.ok decl3, state0, stream0) :=
  c9_code_zero_not_found.2.1 stream0 state0 decl3 state0 stream0 rfl

/-- C10: stream position after a successful C-string parse. With the first
null at relative index `i`, the final position is the end of the last
64-byte chunk read — `min (pos + 64 * (i / 64 + 1)) (length)` — and at
least `pos + i + 1`, i.e. strictly beyond the terminator: the bytes between
the terminator and the end of that chunk are consumed even though they are
not returned. On the concrete stream `[5, 0, 7]` with the terminator at
index 1, the final position is 3 (the end of the chunk read), not 2 (the
byte right after the terminator). -/
theorem c10_cstring_stream_position :
    (∀ (s : ByteStream) (i : Nat), bytesFind0 (s.data.drop s.pos) = some i →
      (parse_cstring_from_stream s none).map (fun r => r.2)
        = some ⟨s.data, min (s.pos + 64 * (i / 64 + 1)) s.data.length,
            s.accesses + (i / 64 + 1)⟩ ∧
      s.pos + i + 1 ≤ min (s.pos + 64 * (i / 64 + 1)) s.data.length) ∧
    (parse_cstring_from_stream ⟨[5, 0, 7], 0, 0⟩ none).map (fun r => r.2.pos)
      = some 3 := by
  constructor
  · intro s i hi
    constructor
    · rw [parse_cstring_found s i hi]
      rfl
    · have h1 := bytesFind0_lt hi
      have h2 : (s.data.drop s.pos).length = s.data.length - s.pos := by simp
      rw [h2] at h1
      omega
  · decide

/-- C10 witness: on the stream `[5, 0, 7]` read from position 0 with 9
prior accesses, the final stream is `⟨[5, 0, 7], 3, 10⟩`: one chunk read
of the whole stream. -/
theorem c10_witness :
    (parse_cstring_from_stream ⟨[5, 0, 7], 0, 9⟩ none).map (fun r => r.2)
      = some ⟨[5, 0, 7], 3, 10⟩ :=
  (c10_cstring_stream_position.1 ⟨[5, 0, 7], 0, 9⟩ 1 (by decide)).1

end PyElfTools
